import Mathlib

/-!
Shallow embedding of the AlasdairF/Cache library (Go) and verification of
its specification claims.

The embedding follows the complete implementation in the source file that
defines the `Bytes` and `Interface` cache variants together with the shared
`cleaner` sweep.  (The repository also carries two older, near-identical
drafts of the byte-cache; they do not compile as Go — missing `var`
keywords, an unimported `atomic` package, the ill-formed statement
`mem, max = 0` — and are superseded by the complete file, which is the one
the claims' line citations target.)

Modelling conventions:
* Go `int` and `int64` are modelled by `Int`.  The counters are `int64`
  maintained by `atomic.AddInt64`; two's-complement wrap-around cannot be
  reached by the sums of in-memory slice lengths involved here, so the
  counters are modelled as unbounded `Int`.
* A Go byte slice `[]byte` is modelled as `List Nat`; its `len` is the
  list length.  The `nil` slice is the empty list.
* Slot tables (`[]*entryBytes`) are `List (Option entryBytes)`; the `nil`
  pointer is `none`.  Entries are heap objects never shared between slots
  (every write allocates a fresh one), so value semantics is faithful.
* Operations that can hit a Go runtime panic (indexing a slice with a
  negative index — the code only bounds-checks `id >= c.size`) return an
  `Option`: `none` models the panic, `some` the normal return.
* `time.Now().Unix()` is passed in as an explicit `now : Int` parameter.
* Each cache registers itself in a package-level list; the constructors
  take and return that registry explicitly.
-/

namespace Cache

/-- One occupied slot of a byte cache: `entryBytes` from the source
(`lastAccess int64`, `data []byte`; the per-entry mutex is a concurrency
artefact with no sequential content). -/
structure entryBytes where
  lastAccess : Int
  data : List Nat
deriving Repr, DecidableEq

/-- The byte cache `Bytes` from the source: slot table `vals`,
memory counter `mem`, budget `max`, logical size `size`. -/
structure Bytes where
  vals : List (Option entryBytes)
  mem : Int
  max : Int
  size : Int
deriving Repr, DecidableEq

/-- Source `NewBytes(size int, megabytes int64)`: allocates `size` nil slots,
sets `max = megabytes * 1048576`, appends the cache to the package-level
registry `caches1` (taken and returned explicitly).  `make` panics on a
negative length, modelled by `none`. -/
def NewBytes (size : Int) (megabytes : Int) (caches1 : List Bytes) :
    Option (Bytes × List Bytes) :=
  if size < 0 then none
  else
    let c : Bytes :=
      { vals := List.replicate size.toNat none, mem := 0,
        max := megabytes * 1048576, size := size }
    some (c, caches1 ++ [c])

/-- Source `Bytes.Get(id)`: returns `(nil, false)` when `id >= size` or the slot
is nil; otherwise sets the entry's `lastAccess` to now and returns its
data with `true`.  A negative `id` passes the `id >= c.size` check and
panics on the slice access (`none`). -/
def Bytes.Get (now : Int) (c : Bytes) (id : Int) :
    Option (List Nat × Bool × Bytes) :=
  if c.size ≤ id then some ([], false, c)
  else if 0 ≤ id then
    match c.vals[id.toNat]? with
    | none => none
    | some none => some ([], false, c)
    | some (some item) =>
        let item2 : entryBytes := { item with lastAccess := now }
        some (item.data, true,
          { c with vals := c.vals.set id.toNat (some item2) })
  else none

/-- Source `Bytes.Store(id, p)`: no-op when `id >= size` or the slot is occupied;
on a nil slot allocates a fresh entry and adds `len(p)` to `mem`. -/
def Bytes.Store (now : Int) (c : Bytes) (id : Int) (p : List Nat) :
    Option Bytes :=
  if c.size ≤ id then some c
  else if 0 ≤ id then
    match c.vals[id.toNat]? with
    | none => none
    | some none =>
        some { c with
          vals := c.vals.set id.toNat (some { lastAccess := now, data := p }),
          mem := c.mem + p.length }
    | some (some _) => some c
  else none

/-- Source `Bytes.Replace(id, p)`: no-op when `id >= size`; on a nil slot behaves
like `Store`; on an occupied slot swaps in the new data and timestamp and
adds `len(p) - len(old)` to `mem`. -/
def Bytes.Replace (now : Int) (c : Bytes) (id : Int) (p : List Nat) :
    Option Bytes :=
  if c.size ≤ id then some c
  else if 0 ≤ id then
    match c.vals[id.toNat]? with
    | none => none
    | some none =>
        some { c with
          vals := c.vals.set id.toNat (some { lastAccess := now, data := p }),
          mem := c.mem + p.length }
    | some (some item) =>
        some { c with
          vals := c.vals.set id.toNat (some { lastAccess := now, data := p }),
          mem := c.mem + ((p.length : Int) - item.data.length) }
  else none

/-- Source `Bytes.Remove(id)`: after the `id >= c.size` check the source executes
`c.vals[id] = false` — an ill-typed assignment of the literal `false` to a
`*entryBytes` slot, which Go rejects at compile time.  Following the
function's own doc comment ("Delete an entry from the cache") the
assignment is modelled as clearing the slot.  Faithfully to the source,
NO adjustment of `mem` is performed. -/
def Bytes.Remove (c : Bytes) (id : Int) : Option Bytes :=
  if c.size ≤ id then some c
  else if 0 ≤ id ∧ id.toNat < c.vals.length then
    some { c with vals := c.vals.set id.toNat none }
  else none

/-- Source `Bytes.Close()`: zeroes `size`, `vals`, `mem`, `max`. -/
def Bytes.Close (_c : Bytes) : Bytes :=
  { vals := [], mem := 0, max := 0, size := 0 }

/-- The loop body of `Bytes.Purge`: walks the slot list; every occupied
entry with `lastAccess < olderThan` is cleared and its data length
subtracted (returned as the accumulated `mem` delta, second component). -/
def purgeBytesList (olderThan : Int) :
    List (Option entryBytes) → List (Option entryBytes) × Int
  | [] => ([], 0)
  | none :: rest =>
      let r := purgeBytesList olderThan rest
      (none :: r.1, r.2)
  | some item :: rest =>
      let r := purgeBytesList olderThan rest
      if item.lastAccess < olderThan then
        (none :: r.1, r.2 - item.data.length)
      else
        (some item :: r.1, r.2)

/-- Source `Bytes.Purge(olderThan)`: clears every entry last accessed before
`olderThan`, decrementing `mem` by each cleared entry's data length. -/
def Bytes.Purge (c : Bytes) (olderThan : Int) : Bytes :=
  let r := purgeBytesList olderThan c.vals
  { c with vals := r.1, mem := c.mem + r.2 }

/-- A Go `interface\x7b\x7d` value, as needed by the `Interface` variant:
either a byte slice or some other value (abstracted), or `nil`. -/
inductive GoVal where
  | nilVal : GoVal
  | bytes (bs : List Nat) : GoVal
  | other (n : Nat) : GoVal
deriving Repr, DecidableEq

/-- One occupied slot of the `Interface` cache: `entryInterface` from the
source (`lastAccess int64`, `data interface\x7b\x7d`, caller-supplied
`size int64`). -/
structure entryInterface where
  lastAccess : Int
  data : GoVal
  size : Int
deriving Repr, DecidableEq

/-- The `Interface` cache from the source. -/
structure Interface where
  vals : List (Option entryInterface)
  mem : Int
  max : Int
  size : Int
deriving Repr, DecidableEq

/-- Source `New(size int, megabytes int64)`: allocates `size` nil slots, sets
`max = megabytes * 1024` (so named "megabytes" but scaled by 2^10, unlike
`NewBytes` which scales by 2^20), appends the cache to the package-level
registry `caches2`. -/
def New (size : Int) (megabytes : Int) (caches2 : List Interface) :
    Option (Interface × List Interface) :=
  if size < 0 then none
  else
    let c : Interface :=
      { vals := List.replicate size.toNat none, mem := 0,
        max := megabytes * 1024, size := size }
    some (c, caches2 ++ [c])

/-- Source `Interface.Get(id)`: as `Bytes.Get`; a miss returns the `nil`
interface value. -/
def Interface.Get (now : Int) (c : Interface) (id : Int) :
    Option (GoVal × Bool × Interface) :=
  if c.size ≤ id then some (GoVal.nilVal, false, c)
  else if 0 ≤ id then
    match c.vals[id.toNat]? with
    | none => none
    | some none => some (GoVal.nilVal, false, c)
    | some (some item) =>
        let item2 : entryInterface := { item with lastAccess := now }
        some (item.data, true,
          { c with vals := c.vals.set id.toNat (some item2) })
  else none

/-- Source `Interface.Store(id, p, size)`: as `Bytes.Store` with a
caller-supplied entry size. -/
def Interface.Store (now : Int) (c : Interface) (id : Int) (p : GoVal)
    (size : Int) : Option Interface :=
  if c.size ≤ id then some c
  else if 0 ≤ id then
    match c.vals[id.toNat]? with
    | none => none
    | some none =>
        some { c with
          vals := c.vals.set id.toNat
            (some { lastAccess := now, data := p, size := size }),
          mem := c.mem + size }
    | some (some _) => some c
  else none

/-- Source `Interface.Replace(id, p, size)`: the source declares `p []byte`
(rather than an interface value), so only byte slices can be stored this
way; otherwise as `Bytes.Replace` with explicit sizes. -/
def Interface.Replace (now : Int) (c : Interface) (id : Int) (p : List Nat)
    (size : Int) : Option Interface :=
  if c.size ≤ id then some c
  else if 0 ≤ id then
    match c.vals[id.toNat]? with
    | none => none
    | some none =>
        some { c with
          vals := c.vals.set id.toNat
            (some { lastAccess := now, data := GoVal.bytes p, size := size }),
          mem := c.mem + size }
    | some (some item) =>
        some { c with
          vals := c.vals.set id.toNat
            (some { lastAccess := now, data := GoVal.bytes p, size := size }),
          mem := c.mem + (size - item.size) }
  else none

/-- Source `Interface.Remove(id)`: same ill-typed `c.vals[id] = false` as
`Bytes.Remove`, modelled the same way: clears the slot, does not touch
`mem`. -/
def Interface.Remove (c : Interface) (id : Int) : Option Interface :=
  if c.size ≤ id then some c
  else if 0 ≤ id ∧ id.toNat < c.vals.length then
    some { c with vals := c.vals.set id.toNat none }
  else none

/-- Source `Interface.Close()`: zeroes `size`, `vals`, `mem`, `max`. -/
def Interface.Close (_c : Interface) : Interface :=
  { vals := [], mem := 0, max := 0, size := 0 }

/-- Loop body of `Interface.Purge`; the delta uses the stored entry
sizes. -/
def purgeInterfaceList (olderThan : Int) :
    List (Option entryInterface) → List (Option entryInterface) × Int
  | [] => ([], 0)
  | none :: rest =>
      let r := purgeInterfaceList olderThan rest
      (none :: r.1, r.2)
  | some item :: rest =>
      let r := purgeInterfaceList olderThan rest
      if item.lastAccess < olderThan then
        (none :: r.1, r.2 - item.size)
      else
        (some item :: r.1, r.2)

/-- Source `Interface.Purge(olderThan)`. -/
def Interface.Purge (c : Interface) (olderThan : Int) : Interface :=
  let r := purgeInterfaceList olderThan c.vals
  { c with vals := r.1, mem := c.mem + r.2 }

/-- One pass of the `cleaner` loop body over a single byte cache: the
chain of `if mem > max \x7b Purge(...) \x7d else \x7b continue \x7d`
checks with thresholds 5 days, 1 day, 1 hour, 10 minutes before `now`,
then `now + 3600` ("everything").  Each `continue` abandons the cache, so
the chain stops at the first satisfied budget check.  The source reads
`time.Now().Unix()` afresh at each stage; within one tick this is the same
second, modelled by the single parameter `now`. -/
def cleanerStepBytes (now : Int) (c : Bytes) : Bytes :=
  if c.mem > c.max then
    let c1 := c.Purge (now - 432000)
    if c1.mem > c1.max then
      let c2 := c1.Purge (now - 86400)
      if c2.mem > c2.max then
        let c3 := c2.Purge (now - 3600)
        if c3.mem > c3.max then
          let c4 := c3.Purge (now - 600)
          if c4.mem > c4.max then c4.Purge (now + 3600) else c4
        else c3
      else c2
    else c1
  else c

/-- One pass of the `cleaner` loop body over a single `Interface` cache
(same thresholds and structure as for the byte caches). -/
def cleanerStepInterface (now : Int) (c : Interface) : Interface :=
  if c.mem > c.max then
    let c1 := c.Purge (now - 432000)
    if c1.mem > c1.max then
      let c2 := c1.Purge (now - 86400)
      if c2.mem > c2.max then
        let c3 := c2.Purge (now - 3600)
        if c3.mem > c3.max then
          let c4 := c3.Purge (now - 600)
          if c4.mem > c4.max then c4.Purge (now + 3600) else c4
        else c3
      else c2
    else c1
  else c

/-- One full `cleaner` tick: every byte cache in the snapshot of
`caches1` and every `Interface` cache in the snapshot of `caches2` goes
through its stage chain. -/
def cleanerTick (now : Int) (caches1 : List Bytes)
    (caches2 : List Interface) : List Bytes × List Interface :=
  (caches1.map (cleanerStepBytes now), caches2.map (cleanerStepInterface now))

/-- Modelled from the spec: the graduated purge as §4.2 words it — walk
the threshold stages in order, re-checking `mem <= max` before each stage
and stopping as soon as it is satisfied.  Used to compare the code's
`cleaner` chain against the spec's description. -/
def stagedPurgeBytes : List Int → Bytes → Bytes
  | [], c => c
  | t :: ts, c =>
      if c.mem > c.max then stagedPurgeBytes ts (c.Purge t) else c

/-- Well-formedness of a byte cache state: the logical size matches the
slot-table length.  Holds for freshly constructed and closed caches and is
preserved by every operation. -/
def Bytes.WF (c : Bytes) : Prop := c.size = (c.vals.length : Int)

/-- Sum of the data lengths of the live entries of a slot table — what the
`mem` counter is meant to track for a byte cache. -/
def liveBytes : List (Option entryBytes) → Int
  | [] => 0
  | none :: rest => liveBytes rest
  | some item :: rest => (item.data.length : Int) + liveBytes rest

/-- Total data length of the entries a `Purge olderThan` call removes:
those with `lastAccess < olderThan`. -/
def removedBytes (olderThan : Int) : List (Option entryBytes) → Int
  | [] => 0
  | none :: rest => removedBytes olderThan rest
  | some item :: rest =>
      (if item.lastAccess < olderThan then (item.data.length : Int) else 0) +
        removedBytes olderThan rest

/-! ## Helper lemmas -/

/-- Characterisation of the `Purge` loop body: it maps every slot through
the "clear if stale" filter and its accumulated `mem` delta is minus the
total size of the cleared entries. -/
theorem purgeBytesList_eq (t : Int) (l : List (Option entryBytes)) :
    purgeBytesList t l =
      (l.map (fun s => s.bind (fun e =>
        if e.lastAccess < t then none else some e)),
       -(removedBytes t l)) := by
  induction l with
  | nil => simp [purgeBytesList, removedBytes]
  | cons s rest ih =>
    cases s with
    | none => simp [purgeBytesList, removedBytes, ih]
    | some e =>
      by_cases h : e.lastAccess < t
      · simp only [purgeBytesList, removedBytes, ih, List.map_cons,
          Option.some_bind, if_pos h, Prod.mk.injEq]
        exact ⟨trivial, by ring⟩
      · simp only [purgeBytesList, removedBytes, ih, List.map_cons,
          Option.some_bind, if_neg h, Prod.mk.injEq]
        exact ⟨trivial, by ring⟩

/-- Purging an already purged slot table clears nothing and has delta 0:
every surviving entry has `lastAccess ≥ t` and purging does not touch
timestamps. -/
theorem purgeBytesList_idem (t : Int) (l : List (Option entryBytes)) :
    purgeBytesList t (purgeBytesList t l).1 = ((purgeBytesList t l).1, 0) := by
  induction l with
  | nil => simp [purgeBytesList]
  | cons s rest ih =>
    cases s with
    | none => simp [purgeBytesList, ih]
    | some e =>
      by_cases h : e.lastAccess < t
      · simp [purgeBytesList, h, ih]
      · simp [purgeBytesList, h, ih]

/-- An in-range index is a valid position in a well-formed slot table. -/
theorem toNat_lt_length (c : Bytes) (id : Int) (hwf : c.WF) (h0 : 0 ≤ id)
    (hlt : id < c.size) : id.toNat < c.vals.length := by
  unfold Bytes.WF at hwf
  omega

/-- Running `Get` on an in-range occupied slot: refreshes the timestamp and
returns the entry's data with `true`. -/
theorem Get_found (now : Int) (c : Bytes) (id : Int) (item : entryBytes)
    (h0 : 0 ≤ id) (hlt : id < c.size)
    (hs : c.vals[id.toNat]? = some (some item)) :
    c.Get now id = some (item.data, true,
      { c with vals := c.vals.set id.toNat (some { item with lastAccess := now }) }) := by
  unfold Bytes.Get
  rw [if_neg (by omega), if_pos h0, hs]

/-- Running `Store` on an in-range empty slot: allocates the entry and adds the
payload length to `mem`. -/
theorem Store_empty (now : Int) (c : Bytes) (id : Int) (p : List Nat)
    (h0 : 0 ≤ id) (hlt : id < c.size)
    (hs : c.vals[id.toNat]? = some none) :
    c.Store now id p = some
      { c with
        vals := c.vals.set id.toNat (some { lastAccess := now, data := p }),
        mem := c.mem + p.length } := by
  unfold Bytes.Store
  rw [if_neg (by omega), if_pos h0, hs]

/-- Running `Store` on an in-range occupied slot: the cache is returned exactly
as it was. -/
theorem Store_occupied (now : Int) (c : Bytes) (id : Int) (p : List Nat)
    (item : entryBytes) (h0 : 0 ≤ id) (hlt : id < c.size)
    (hs : c.vals[id.toNat]? = some (some item)) :
    c.Store now id p = some c := by
  unfold Bytes.Store
  rw [if_neg (by omega), if_pos h0, hs]

/-- Running `Replace` on an in-range empty slot: behaves like `Store`. -/
theorem Replace_empty (now : Int) (c : Bytes) (id : Int) (p : List Nat)
    (h0 : 0 ≤ id) (hlt : id < c.size)
    (hs : c.vals[id.toNat]? = some none) :
    c.Replace now id p = some
      { c with
        vals := c.vals.set id.toNat (some { lastAccess := now, data := p }),
        mem := c.mem + p.length } := by
  unfold Bytes.Replace
  rw [if_neg (by omega), if_pos h0, hs]

/-- Running `Replace` on an in-range occupied slot: swaps data and timestamp and
adjusts `mem` by the length difference. -/
theorem Replace_occupied (now : Int) (c : Bytes) (id : Int) (p : List Nat)
    (item : entryBytes) (h0 : 0 ≤ id) (hlt : id < c.size)
    (hs : c.vals[id.toNat]? = some (some item)) :
    c.Replace now id p = some
      { c with
        vals := c.vals.set id.toNat (some { lastAccess := now, data := p }),
        mem := c.mem + ((p.length : Int) - item.data.length) } := by
  unfold Bytes.Replace
  rw [if_neg (by omega), if_pos h0, hs]

/-- The data length the current occupant of a slot contributes to `mem`
(0 for an empty or out-of-range slot). -/
def slotDataLen (c : Bytes) (id : Int) : Int :=
  match c.vals[id.toNat]? with
  | some (some e) => (e.data.length : Int)
  | _ => 0

/-! ## The claims -/

/-- Claim C5: `Purge(olderThan)` removes exactly the occupied entries with
`lastAccess < olderThan`, decrements the counter by the removed entries'
total size, and leaves every other entry (payload and timestamp) as well
as `max` and the logical size unchanged. -/
theorem purge_removes_exactly_stale (c : Bytes) (t : Int) :
    (c.Purge t).vals =
      c.vals.map (fun s => s.bind (fun e =>
        if e.lastAccess < t then none else some e)) ∧
    (c.Purge t).mem = c.mem - removedBytes t c.vals ∧
    (c.Purge t).max = c.max ∧
    (c.Purge t).size = c.size := by
  unfold Bytes.Purge
  rw [purgeBytesList_eq]
  refine ⟨rfl, ?_, rfl, rfl⟩
  simp
  ring

/-- Claim C10: `Purge` is idempotent — a second `Purge` with the same
threshold removes nothing and leaves the counter unchanged, because every
surviving entry has `lastAccess ≥ t` and `Purge` does not update
timestamps. -/
theorem purge_idempotent (c : Bytes) (t : Int) :
    (c.Purge t).Purge t = c.Purge t := by
  unfold Bytes.Purge
  rw [purgeBytesList_idem]
  simp

/-- Claim C7: on a sweep tick, a byte cache with `mem ≤ max` is left
untouched, and an over-budget cache goes through exactly the graduated
stage chain — thresholds 5 days, 1 day, 1 hour, 10 minutes before now,
then beyond now ("everything") — re-checking `mem ≤ max` before each
stage and stopping as soon as it is satisfied (`stagedPurgeBytes`). -/
theorem cleaner_graduated_stages (now : Int) (c : Bytes) :
    (c.mem ≤ c.max → cleanerStepBytes now c = c) ∧
    cleanerStepBytes now c =
      stagedPurgeBytes
        [now - 432000, now - 86400, now - 3600, now - 600, now + 3600] c := by
  constructor
  · intro h
    unfold cleanerStepBytes
    rw [if_neg (by omega)]
  · simp only [cleanerStepBytes, stagedPurgeBytes]

/-- Witness for C7 at a concrete input: a cache within budget is left
exactly as it is by the sweep. -/
theorem cleaner_graduated_stages_witness :
    cleanerStepBytes 1000 { vals := [none], mem := 0, max := 5, size := 1 } =
      { vals := [none], mem := 0, max := 5, size := 1 } :=
  (cleaner_graduated_stages 1000
    { vals := [none], mem := 0, max := 5, size := 1 }).1 (by decide)

/-- Claim C2 counterexample: the code only bounds-checks `id ≥ size`;
index `-1` is out of range ("below 0") yet `Get` does not return
`(empty, false)` — it panics on the slice access (modelled by `none`). -/
theorem negative_index_get_panics :
    Bytes.Get 0 { vals := [none], mem := 0, max := 0, size := 1 } (-1) =
      none := by
  decide

/-- Claim C2 (amended): for every index at or above the configured size,
`Get` returns `(empty, false)` and `Store`, `Replace` and `Remove` return
the cache unchanged, signalling nothing; indices below 0, however, are
not checked and hit a runtime panic on the slice access. -/
theorem out_of_range_is_noop (c : Bytes) (id now : Int) (p : List Nat)
    (h : c.size ≤ id) :
    c.Get now id = some ([], false, c) ∧
    c.Store now id p = some c ∧
    c.Replace now id p = some c ∧
    c.Remove id = some c := by
  unfold Bytes.Get Bytes.Store Bytes.Replace Bytes.Remove
  rw [if_pos h, if_pos h, if_pos h, if_pos h]
  exact ⟨rfl, rfl, rfl, rfl⟩

/-- Witness for C2 (amended) at a concrete input: index 999 on a size-10
cache. -/
theorem out_of_range_is_noop_witness :
    Bytes.Get 3 { vals := List.replicate 10 none, mem := 0, max := 0, size := 10 } 999 =
      some ([], false,
        { vals := List.replicate 10 none, mem := 0, max := 0, size := 10 }) :=
  (out_of_range_is_noop
    { vals := List.replicate 10 none, mem := 0, max := 0, size := 10 }
    999 3 [7] (by decide)).1

/-- Claim C9 counterexample: on a closed cache, `Get` with the negative
index `-1` passes the `id ≥ size` check (size is 0) and panics indexing
the nil slot table, so not *every* index returns `found = false`. -/
theorem closed_get_negative_panics :
    Bytes.Get 9
      (Bytes.Close
        { vals := [some { lastAccess := 0, data := [1] }], mem := 1,
          max := 4, size := 1 }) (-1) = none := by
  decide

/-- Claim C9 (amended): `Close` zeroes the logical size, the budget and
the memory counter, and every subsequent `Get` with a nonnegative index
returns `found = false`; a negative index still panics on the slice
access, as it does on an open cache. -/
theorem close_makes_inert (c : Bytes) (id now : Int) (h : 0 ≤ id) :
    c.Close.size = 0 ∧ c.Close.max = 0 ∧ c.Close.mem = 0 ∧
    c.Close.Get now id = some ([], false, c.Close) := by
  refine ⟨rfl, rfl, rfl, ?_⟩
  unfold Bytes.Close Bytes.Get
  rw [if_pos h]

/-- Witness for C9 (amended) at a concrete input. -/
theorem close_makes_inert_witness :
    (Bytes.Close
      { vals := [some { lastAccess := 0, data := [1] }], mem := 1,
        max := 4, size := 1 }).Get 9 0 =
      some ([], false,
        Bytes.Close
          { vals := [some { lastAccess := 0, data := [1] }], mem := 1,
            max := 4, size := 1 }) :=
  (close_makes_inert
    { vals := [some { lastAccess := 0, data := [1] }], mem := 1,
      max := 4, size := 1 } 0 9 (by decide)).2.2.2

/-- Claim C3: on a valid index with an empty slot, `Store` creates an
entry holding the payload — a subsequent `Get` returns it with
`found = true` — and adds the entry's size (the payload length) to `mem`;
on an occupied slot `Store` returns the cache exactly unchanged (payload,
timestamps and counter included). -/
theorem store_fills_empty_only (c : Bytes) (id : Int) (p : List Nat)
    (now now2 : Int) (hwf : c.WF) (h0 : 0 ≤ id) (hlt : id < c.size) :
    (c.vals[id.toNat]? = some none →
      ∃ c2, c.Store now id p = some c2 ∧
        c2.mem = c.mem + p.length ∧
        c2.vals[id.toNat]? = some (some { lastAccess := now, data := p }) ∧
        ∃ c3, c2.Get now2 id = some (p, true, c3)) ∧
    (∀ item, c.vals[id.toNat]? = some (some item) →
      c.Store now id p = some c) := by
  have hlen := toNat_lt_length c id hwf h0 hlt
  constructor
  · intro hs
    have hset : (c.vals.set id.toNat
        (some { lastAccess := now, data := p }))[id.toNat]? =
        some (some { lastAccess := now, data := p }) :=
      List.getElem?_set_eq_of_lt _ hlen
    refine ⟨_, Store_empty now c id p h0 hlt hs, rfl, hset, ?_⟩
    exact ⟨_, Get_found now2 _ id { lastAccess := now, data := p }
      h0 hlt hset⟩
  · intro item hs
    exact Store_occupied now c id p item h0 hlt hs

/-- Witness for C3 at a concrete input: storing `[9]` at index 0 of a
fresh one-slot cache. -/
theorem store_fills_empty_only_witness :
    ∃ c2, Bytes.Store 5 { vals := [none], mem := 0, max := 8, size := 1 } 0 [9] = some c2 ∧
      c2.mem = 0 + ([9] : List Nat).length ∧
      c2.vals[(0 : Int).toNat]? = some (some { lastAccess := 5, data := [9] }) ∧
      ∃ c3, c2.Get 6 0 = some ([9], true, c3) :=
  (store_fills_empty_only { vals := [none], mem := 0, max := 8, size := 1 }
    0 [9] 5 6 rfl (by decide) (by decide)).1 (by decide)

/-- Claim C4 counterexample: the claim quantifies over *any* index, but on
the out-of-range index 1 of a size-1 cache `Replace` is a silent no-op and
the subsequent `Get` still reports `found = false` with no payload. -/
theorem replace_out_of_range_no_effect :
    Bytes.Replace 10 { vals := [none], mem := 0, max := 0, size := 1 } 1 [5] =
      some { vals := [none], mem := 0, max := 0, size := 1 } ∧
    Bytes.Get 11 { vals := [none], mem := 0, max := 0, size := 1 } 1 =
      some ([], false, { vals := [none], mem := 0, max := 0, size := 1 }) := by
  constructor
  · decide
  · decide

/-- Claim C4 (amended): on every in-range index, `Replace` installs the
new payload with the current timestamp — creating the entry if the slot
was empty — adjusts `mem` by the new size minus the size of the previous
occupant (0 if none; the difference may be negative), and a subsequent
`Get` observes the new payload with `found = true`. -/
theorem replace_installs_payload (c : Bytes) (id : Int) (p : List Nat)
    (now now2 : Int) (hwf : c.WF) (h0 : 0 ≤ id) (hlt : id < c.size) :
    ∃ c2, c.Replace now id p = some c2 ∧
      c2.vals[id.toNat]? = some (some { lastAccess := now, data := p }) ∧
      c2.mem = c.mem + ((p.length : Int) - slotDataLen c id) ∧
      ∃ c3, c2.Get now2 id = some (p, true, c3) := by
  have hlen := toNat_lt_length c id hwf h0 hlt
  have hset : (c.vals.set id.toNat
      (some { lastAccess := now, data := p }))[id.toNat]? =
      some (some { lastAccess := now, data := p }) :=
    List.getElem?_set_eq_of_lt _ hlen
  have hsome := List.getElem?_eq_getElem hlen
  rcases hm : c.vals[id.toNat] with _ | item
  · refine ⟨_, Replace_empty now c id p h0 hlt (by rw [hsome, hm]), hset, ?_, ?_⟩
    · show c.mem + (p.length : Int) = _
      unfold slotDataLen
      rw [hsome, hm]
      ring
    · exact ⟨_, Get_found now2 _ id { lastAccess := now, data := p }
        h0 hlt hset⟩
  · refine ⟨_, Replace_occupied now c id p item h0 hlt (by rw [hsome, hm]),
      hset, ?_, ?_⟩
    · unfold slotDataLen
      rw [hsome, hm]
    · exact ⟨_, Get_found now2 _ id { lastAccess := now, data := p }
        h0 hlt hset⟩

/-- Witness for C4 (amended) at a concrete input: replacing the occupant
`[1, 2, 3]` of slot 0 by `[4]` (a negative size adjustment). -/
theorem replace_installs_payload_witness :
    ∃ c2, Bytes.Replace 20 { vals := [some { lastAccess := 7, data := [1, 2, 3] }], mem := 3, max := 8, size := 1 } 0 [4] = some c2 ∧
      c2.vals[(0 : Int).toNat]? = some (some { lastAccess := 20, data := [4] }) ∧
      c2.mem = 3 + ((([4] : List Nat).length : Int) -
        slotDataLen { vals := [some { lastAccess := 7, data := [1, 2, 3] }], mem := 3, max := 8, size := 1 } 0) ∧
      ∃ c3, c2.Get 21 0 = some ([4], true, c3) :=
  replace_installs_payload
    { vals := [some { lastAccess := 7, data := [1, 2, 3] }], mem := 3, max := 8, size := 1 }
    0 [4] 20 21 rfl (by decide) (by decide)

/-- Claim C6 counterexample: the constructors do not set `max` to their
second argument — `NewBytes(2, 1)` sets `max` to `1 * 1048576` (the
argument is in megabytes) and `New(2, 1)` sets it to `1 * 1024`, neither
equal to 1. -/
theorem construct_max_not_budget_arg :
    NewBytes 2 1 [] =
      some ({ vals := [none, none], mem := 0, max := 1048576, size := 2 },
        [{ vals := [none, none], mem := 0, max := 1048576, size := 2 }]) ∧
    (1048576 : Int) ≠ 1 ∧
    New 2 1 [] =
      some ({ vals := [none, none], mem := 0, max := 1024, size := 2 },
        [{ vals := [none, none], mem := 0, max := 1024, size := 2 }]) ∧
    (1024 : Int) ≠ 1 := by
  refine ⟨?_, by decide, ?_, by decide⟩
  · decide
  · decide

/-- Claim C6 (amended): the constructors take the budget in *megabytes*:
`NewBytes(size, m)` allocates `size` empty slots (every `Get` on an index
of the fresh cache returns `found = false`), sets `max = m * 1048576`,
leaves `mem` at 0 and appends the cache to the process-wide registry; the
`Interface` variant `New(size, m)` does the same except that it sets
`max = m * 1024`. -/
theorem construct_allocates_and_registers (size m : Int)
    (reg1 : List Bytes) (reg2 : List Interface) (h : 0 ≤ size) :
    ∃ cb ci,
      NewBytes size m reg1 = some (cb, reg1 ++ [cb]) ∧
      cb.size = size ∧ cb.mem = 0 ∧ cb.max = m * 1048576 ∧
      cb.vals.length = size.toNat ∧
      (∀ id now, 0 ≤ id → id < size → cb.Get now id = some ([], false, cb)) ∧
      New size m reg2 = some (ci, reg2 ++ [ci]) ∧
      ci.size = size ∧ ci.mem = 0 ∧ ci.max = m * 1024 ∧
      ci.vals.length = size.toNat := by
  have hb : NewBytes size m reg1 =
      some ({ vals := List.replicate size.toNat none, mem := 0, max := m * 1048576, size := size },
        reg1 ++ [{ vals := List.replicate size.toNat none, mem := 0, max := m * 1048576, size := size }]) := by
    unfold NewBytes
    rw [if_neg (by omega)]
  have hi : New size m reg2 =
      some ({ vals := List.replicate size.toNat none, mem := 0, max := m * 1024, size := size },
        reg2 ++ [{ vals := List.replicate size.toNat none, mem := 0, max := m * 1024, size := size }]) := by
    unfold New
    rw [if_neg (by omega)]
  refine ⟨_, _, hb, rfl, rfl, rfl, List.length_replicate _ _, ?_, hi,
    rfl, rfl, rfl, List.length_replicate _ _⟩
  intro id now h0 hlt
  unfold Bytes.Get
  rw [if_neg (by simpa using (by omega : ¬ size ≤ id)), if_pos h0]
  rw [show (List.replicate size.toNat (none : Option entryBytes))[id.toNat]? = some none from List.getElem?_replicate_of_lt (by omega)]

/-- Witness for C6 (amended) at a concrete input: a two-slot byte cache
and `Interface` cache with a 3-megabyte argument, starting from empty
registries. -/
theorem construct_allocates_and_registers_witness :
    ∃ cb ci,
      NewBytes 2 3 [] = some (cb, [] ++ [cb]) ∧
      cb.size = 2 ∧ cb.mem = 0 ∧ cb.max = 3 * 1048576 ∧
      cb.vals.length = (2 : Int).toNat ∧
      (∀ id now, 0 ≤ id → id < 2 → cb.Get now id = some ([], false, cb)) ∧
      New 2 3 [] = some (ci, [] ++ [ci]) ∧
      ci.size = 2 ∧ ci.mem = 0 ∧ ci.max = 3 * 1024 ∧
      ci.vals.length = (2 : Int).toNat :=
  construct_allocates_and_registers 2 3 [] [] (by decide)

/-- Claim C1 (code bug): `Remove` on an occupied in-range slot does clear
it — the subsequent `Get` misses — but performs *no* decrement of `mem`:
removing the single 1-byte entry leaves the counter at 1 instead of 0.
(The source statement is `c.vals[id] = false`, which is not even
well-typed Go.) -/
theorem remove_skips_counter_decrement :
    Bytes.Remove { vals := [some { lastAccess := 5, data := [7] }], mem := 1, max := 1048576, size := 1 } 0 =
      some { vals := [none], mem := 1, max := 1048576, size := 1 } ∧
    Bytes.Get 6 { vals := [none], mem := 1, max := 1048576, size := 1 } 0 =
      some ([], false, { vals := [none], mem := 1, max := 1048576, size := 1 }) ∧
    (1 : Int) ≠ 1 - 1 := by
  refine ⟨?_, ?_, by decide⟩
  · decide
  · decide

/-- Claim C8 (code bug): the counter invariant `mem = sum of live entry
sizes` survives `Store` but is broken by `Remove`, which clears the slot
without decrementing `mem`: after storing one 1-byte entry in a fresh
cache and removing it, `mem` is still 1 while the live total is 0. -/
theorem mem_invariant_broken_by_remove :
    NewBytes 1 1 [] =
      some ({ vals := [none], mem := 0, max := 1048576, size := 1 }, [{ vals := [none], mem := 0, max := 1048576, size := 1 }]) ∧
    Bytes.Store 5 { vals := [none], mem := 0, max := 1048576, size := 1 } 0 [7] =
      some { vals := [some { lastAccess := 5, data := [7] }], mem := 1, max := 1048576, size := 1 } ∧
    liveBytes [some { lastAccess := 5, data := [7] }] = 1 ∧
    Bytes.Remove { vals := [some { lastAccess := 5, data := [7] }], mem := 1, max := 1048576, size := 1 } 0 =
      some { vals := [none], mem := 1, max := 1048576, size := 1 } ∧
    liveBytes ([none] : List (Option entryBytes)) = 0 ∧
    (1 : Int) ≠ 0 := by
  refine ⟨?_, ?_, ?_, ?_, ?_, by decide⟩
  · decide
  · decide
  · decide
  · decide
  · decide

end Cache
